import Mathlib

/-!
Verification of `src/python/monte_carlo/gbm.py` (repository `s-weil/math_finance`).

The file `gbm.py` defines one numeric function,

    def simulate_paths(drift, vola, price_0, nr_steps, nr_paths):
        zs = norm.ppf(np.random.rand(nr_steps, nr_paths))
        daily_returns = np.exp(drift + vola * zs)
        price_paths = np.zeros_like(daily_returns)
        price_paths[0] = price_0
        for t in range(1, nr_steps):
            price_paths[t] = price_paths[t-1]*daily_returns[t]
        return price_paths

plus a timing decorator and a script-level profiling block.  We embed the
function shallowly: real numbers model the floats, the drawn standard-normal
matrix `zs` is an explicit argument (the randomness of line 6 is an input to
the deterministic rest of the function), a matrix is a list of row lists, and
the possibility of a runtime `IndexError` is modelled with `Except`.
-/

namespace Gbm

/-- Line 7 of `gbm.py`: `daily_returns = np.exp(drift + vola * zs)`,
elementwise over the drawn matrix `zs`. -/
noncomputable def daily_returns (drift vola : ℝ) (zs : ℕ → ℕ → ℝ) (t p : ℕ) : ℝ :=
  Real.exp (drift + vola * zs t p)

/-- Line 8 of `gbm.py`: `np.zeros_like(daily_returns)`, a matrix of zeros of
shape `(nr_steps, nr_paths)`. -/
def zeros_like (nr_steps nr_paths : ℕ) : List (List ℝ) :=
  List.replicate nr_steps (List.replicate nr_paths 0)

/-- Reading entry `(t, p)` of a matrix (out-of-range reads default to `0`;
all reads performed by the program are in range). -/
def entry (m : List (List ℝ)) (t p : ℕ) : ℝ :=
  (m.getD t []).getD p 0

/-- Assigning a whole row, as in `price_paths[t] = ...` (a no-op when `t` is
out of range; the program only assigns in range, except for the row-0
assignment on an empty matrix, which `simulate_paths` models as an error). -/
def setRow (m : List (List ℝ)) (t : ℕ) (row : List ℝ) : List (List ℝ) :=
  m.set t row

/-- Line 10 of `gbm.py`: the iteration sequence of `range(1, nr_steps)`. -/
def loopSteps (nr_steps : ℕ) : List ℕ :=
  List.range' 1 (nr_steps - 1)

/-- Line 11 of `gbm.py`: one loop iteration,
`price_paths[t] = price_paths[t-1]*daily_returns[t]`, elementwise over the
`nr_paths` columns. -/
noncomputable def loopBody (drift vola : ℝ) (nr_paths : ℕ) (zs : ℕ → ℕ → ℝ)
    (m : List (List ℝ)) (t : ℕ) : List (List ℝ) :=
  setRow m t (List.ofFn fun p : Fin nr_paths =>
    entry m (t - 1) p.val * daily_returns drift vola zs t p.val)

/-- Lines 5-12 of `gbm.py`: `simulate_paths(drift, vola, price_0, nr_steps,
nr_paths)`, with the drawn standard-normal matrix `zs` passed explicitly.
When `nr_steps = 0` the assignment `price_paths[0] = price_0` on line 9
indexes an empty first axis and numpy raises an `IndexError`; this is the
`Except.error` case.  Otherwise row 0 is set to `price_0` and the loop of
lines 10-11 compounds the remaining rows. -/
noncomputable def simulate_paths (drift vola price_0 : ℝ) (nr_steps nr_paths : ℕ)
    (zs : ℕ → ℕ → ℝ) : Except String (List (List ℝ)) :=
  if nr_steps = 0 then
    Except.error "IndexError: index 0 is out of bounds for axis 0 with size 0"
  else
    Except.ok ((loopSteps nr_steps).foldl (loopBody drift vola nr_paths zs)
      (setRow (zeros_like nr_steps nr_paths) 0 (List.replicate nr_paths price_0)))

/-- The closed form of the recurrence of lines 9-11: row `0` is `price_0`,
and row `t+1` is row `t` times the return multiplier of row `t+1`.  Used as
the loop invariant relating the imperative fold to its mathematical value. -/
noncomputable def pathValue (drift vola price_0 : ℝ) (zs : ℕ → ℕ → ℝ) : ℕ → ℕ → ℝ
  | 0, _ => price_0
  | t + 1, p => pathValue drift vola price_0 zs t p * daily_returns drift vola zs (t + 1) p

/-- The matrix held by `price_paths` after the first `k` iterations of the
loop of lines 10-11 (iterations `t = 1 .. k`), starting from the matrix of
lines 8-9. -/
noncomputable def simState (drift vola price_0 : ℝ) (nr_steps nr_paths : ℕ)
    (zs : ℕ → ℕ → ℝ) (k : ℕ) : List (List ℝ) :=
  (List.range' 1 k).foldl (loopBody drift vola nr_paths zs)
    (setRow (zeros_like nr_steps nr_paths) 0 (List.replicate nr_paths price_0))

lemma simulate_paths_eq_simState (drift vola price_0 : ℝ) (nr_steps nr_paths : ℕ)
    (zs : ℕ → ℕ → ℝ) (h : nr_steps ≠ 0) :
    simulate_paths drift vola price_0 nr_steps nr_paths zs
      = Except.ok (simState drift vola price_0 nr_steps nr_paths zs (nr_steps - 1)) := by
  simp [simulate_paths, simState, loopSteps, h]

lemma simState_succ (drift vola price_0 : ℝ) (nr_steps nr_paths : ℕ)
    (zs : ℕ → ℕ → ℝ) (k : ℕ) :
    simState drift vola price_0 nr_steps nr_paths zs (k + 1)
      = loopBody drift vola nr_paths zs
          (simState drift vola price_0 nr_steps nr_paths zs k) (1 + k) := by
  rw [simState, List.range'_1_concat, List.foldl_append]
  rfl

/-- The loop invariant: after `k` in-range iterations, the matrix still has
shape `(nr_steps, nr_paths)` and its rows `0 .. k` hold the compounded
values `pathValue`. -/
lemma simState_invariant (drift vola price_0 : ℝ) (nr_steps nr_paths : ℕ)
    (zs : ℕ → ℕ → ℝ) (h1 : 1 ≤ nr_steps) :
    ∀ k, k ≤ nr_steps - 1 →
      (simState drift vola price_0 nr_steps nr_paths zs k).length = nr_steps
      ∧ (∀ r ∈ simState drift vola price_0 nr_steps nr_paths zs k, r.length = nr_paths)
      ∧ (∀ t ≤ k, ∀ p < nr_paths,
          entry (simState drift vola price_0 nr_steps nr_paths zs k) t p
            = pathValue drift vola price_0 zs t p) := by
  intro k
  induction k with
  | zero =>
    intro _
    have hlen : (simState drift vola price_0 nr_steps nr_paths zs 0).length = nr_steps := by
      simp [simState, setRow, zeros_like]
    refine ⟨hlen, ?_, ?_⟩
    · intro r hr
      simp only [simState, List.range', List.foldl_nil, setRow] at hr
      rcases List.mem_or_eq_of_mem_set hr with hr | hr
      · have hrz : r = List.replicate nr_paths (0 : ℝ) :=
          List.eq_of_mem_replicate (by simpa [zeros_like] using hr)
        rw [hrz]; simp
      · rw [hr]; simp
    · intro t ht p hp
      interval_cases t
      have h0 : (simState drift vola price_0 nr_steps nr_paths zs 0)[0]?
          = some (List.replicate nr_paths price_0) := by
        simp only [simState, List.range', List.foldl_nil, setRow]
        exact List.getElem?_set_self (by simp [zeros_like]; omega)
      simp [entry, h0, List.getD_eq_getElem?_getD, hp, pathValue]
  | succ k ih =>
    intro hk
    have hk' : k ≤ nr_steps - 1 := by omega
    obtain ⟨ihlen, ihrows, ihent⟩ := ih hk'
    have hlt : k + 1 < nr_steps := by omega
    have hbody : simState drift vola price_0 nr_steps nr_paths zs (k + 1)
        = setRow (simState drift vola price_0 nr_steps nr_paths zs k) (k + 1)
            (List.ofFn fun p : Fin nr_paths =>
              entry (simState drift vola price_0 nr_steps nr_paths zs k) k p.val
                * daily_returns drift vola zs (k + 1) p.val) := by
      rw [simState_succ, loopBody]
      norm_num [Nat.add_comm 1 k]
    refine ⟨?_, ?_, ?_⟩
    · rw [hbody, setRow, List.length_set, ihlen]
    · intro r hr
      rw [hbody, setRow] at hr
      rcases List.mem_or_eq_of_mem_set hr with hr | hr
      · exact ihrows r hr
      · rw [hr, List.length_ofFn]
    · intro t ht p hp
      rcases Nat.lt_or_ge t (k + 1) with ht' | ht'
      · have hne : k + 1 ≠ t := by omega
        have heq : entry (simState drift vola price_0 nr_steps nr_paths zs (k + 1)) t p
            = entry (simState drift vola price_0 nr_steps nr_paths zs k) t p := by
          simp only [hbody, setRow, entry, List.getD_eq_getElem?_getD]
          rw [List.getElem?_set_ne hne]
        rw [heq]
        exact ihent t (by omega) p hp
      · have ht2 : t = k + 1 := by omega
        subst ht2
        have hset : (simState drift vola price_0 nr_steps nr_paths zs (k + 1))[k + 1]?
            = some (List.ofFn fun p : Fin nr_paths =>
                entry (simState drift vola price_0 nr_steps nr_paths zs k) k p.val
                  * daily_returns drift vola zs (k + 1) p.val) := by
          rw [hbody, setRow]
          exact List.getElem?_set_self (by rw [ihlen]; exact hlt)
        simp only [entry, List.getD_eq_getElem?_getD]
        rw [hset]
        simp only [Option.getD_some, List.getElem?_ofFn, List.ofFnNthVal, hp, dif_pos,
          pathValue]
        exact congrArg (· * daily_returns drift vola zs (k + 1) p)
          (by simpa [entry, List.getD_eq_getElem?_getD] using ihent k (le_refl k) p hp)

lemma pathValue_zero_drift_zero_vola (price_0 : ℝ) (zs : ℕ → ℕ → ℝ) (t p : ℕ) :
    pathValue 0 0 price_0 zs t p = price_0 := by
  induction t with
  | zero => rfl
  | succ t ih => simp [pathValue, daily_returns, ih]

lemma pathValue_zero_vola (d price_0 : ℝ) (zs : ℕ → ℕ → ℝ) (t p : ℕ) :
    pathValue d 0 price_0 zs t p = price_0 * Real.exp (d * t) := by
  induction t with
  | zero => simp [pathValue]
  | succ t ih =>
    rw [pathValue, ih, daily_returns]
    rw [mul_assoc, ← Real.exp_add]
    push_cast
    ring_nf

lemma pathValue_pos (drift vola price_0 : ℝ) (zs : ℕ → ℕ → ℝ) (t p : ℕ)
    (h : 0 < price_0) : 0 < pathValue drift vola price_0 zs t p := by
  induction t with
  | zero => exact h
  | succ t ih => exact mul_pos ih (Real.exp_pos _)

lemma foldl_loopBody_congr (drift vola : ℝ) (nr_paths : ℕ) (zs1 zs2 : ℕ → ℕ → ℝ) :
    ∀ ts : List ℕ, (∀ t ∈ ts, ∀ p < nr_paths, zs1 t p = zs2 t p) →
      ∀ m : List (List ℝ),
        ts.foldl (loopBody drift vola nr_paths zs1) m
          = ts.foldl (loopBody drift vola nr_paths zs2) m := by
  intro ts
  induction ts with
  | nil => intro _ m; rfl
  | cons a ts ih =>
    intro h m
    simp only [List.foldl_cons]
    have hbody : loopBody drift vola nr_paths zs1 m a
        = loopBody drift vola nr_paths zs2 m a := by
      unfold loopBody
      have hfn : (fun p : Fin nr_paths =>
            entry m (a - 1) p.val * daily_returns drift vola zs1 a p.val)
          = fun p : Fin nr_paths =>
            entry m (a - 1) p.val * daily_returns drift vola zs2 a p.val := by
        funext p
        rw [daily_returns, daily_returns, h a (List.mem_cons_self a ts) p.val p.isLt]
      rw [hfn]
    rw [hbody]
    exact ih (fun t ht p hp => h t (List.mem_cons_of_mem a ht) p hp) _

/-! ### The script-level profiling block (`__main__`, lines 33-49)

The block first calls `profile_gbm()`, then runs
`cProfile.run('my_func()', 'output.dat')`, and only afterwards opens
`output_time.txt` and `output_calls.txt` and writes the two `pstats` reports
(sorted by the keys `"time"` and `"calls"`).  Name resolution of the
statement given to `cProfile.run` happens against the module globals at run
time; we model the module's defined global names and the sequence of
top-level calls. -/

/-- The global names defined in the module `gbm.py` by the time the
`__main__` block runs (imports plus the three `def`s). -/
def moduleGlobals : List String := ["np", "norm", "simulate_paths", "profile", "profile_gbm"]

/-- Calling a global by name: succeeds when the name is defined in the
module, otherwise raises a `NameError` (which is what Python does when the
statement handed to `cProfile.run` references an undefined name). -/
def callGlobal (name : String) : Except String Unit :=
  if name ∈ moduleGlobals then Except.ok ()
  else Except.error ("NameError: name " ++ name ++ " is not defined")

/-- The two `sort_stats` keys used for the two report files on lines 45 and
48: `"time"` (total time) and `"calls"` (call count). -/
def reportSortKeys : List String := ["time", "calls"]

/-- Lines 33-49 of `gbm.py`: the `__main__` block.  It calls `profile_gbm()`,
then evaluates the statement `my_func()` under the profiler, and only if that
succeeds does it write the two report files, returning their names. -/
def mainBlock : Except String (List String) := do
  _ ← callGlobal "profile_gbm"
  _ ← callGlobal "my_func"
  pure ["output_time.txt", "output_calls.txt"]

/-! ### The claims -/

/-- C1: for every call `simulate_paths(drift, vola, price_0, nr_steps, nr_paths)`
with `nr_steps ≥ 1` and every step index `t` with `1 ≤ t ≤ nr_steps - 1`, row `t`
of the returned matrix equals row `t - 1` multiplied elementwise by row `t` of
the return-multiplier matrix `exp(drift + vola * z)`; the recurrence is
multiplicative. -/
theorem simulate_paths_multiplicative_recurrence (drift vola price_0 : ℝ)
    (nr_steps nr_paths t p : ℕ) (zs : ℕ → ℕ → ℝ)
    (hs : 1 ≤ nr_steps) (ht1 : 1 ≤ t) (ht2 : t ≤ nr_steps - 1) (hp : p < nr_paths) :
    ∃ m, simulate_paths drift vola price_0 nr_steps nr_paths zs = Except.ok m
      ∧ entry m t p = entry m (t - 1) p * daily_returns drift vola zs t p := by
  refine ⟨_, simulate_paths_eq_simState drift vola price_0 nr_steps nr_paths zs
    (by omega), ?_⟩
  obtain ⟨_, _, hent⟩ := simState_invariant drift vola price_0 nr_steps nr_paths zs hs
    (nr_steps - 1) (le_refl _)
  rw [hent t ht2 p hp, hent (t - 1) (by omega) p hp]
  obtain ⟨s, rfl⟩ : ∃ s, t = s + 1 := ⟨t - 1, by omega⟩
  simp [pathValue]

theorem simulate_paths_multiplicative_recurrence_witness :
    ∃ m, simulate_paths 0 0 1 2 1 (fun _ _ => 0) = Except.ok m
      ∧ entry m 1 0 = entry m 0 0 * daily_returns 0 0 (fun _ _ => 0) 1 0 :=
  simulate_paths_multiplicative_recurrence 0 0 1 2 1 1 0 (fun _ _ => 0)
    (by decide) (by decide) (by decide) (by decide)

/-- C2: for every positive `nr_steps` and `nr_paths`, the matrix returned by
`simulate_paths` has shape exactly `(nr_steps, nr_paths)`: `nr_steps` rows,
each of length `nr_paths`. -/
theorem simulate_paths_shape (drift vola price_0 : ℝ) (nr_steps nr_paths : ℕ)
    (zs : ℕ → ℕ → ℝ) (hs : 1 ≤ nr_steps) ( _hp : 1 ≤ nr_paths) :
    ∃ m, simulate_paths drift vola price_0 nr_steps nr_paths zs = Except.ok m
      ∧ m.length = nr_steps ∧ ∀ r ∈ m, r.length = nr_paths := by
  refine ⟨_, simulate_paths_eq_simState drift vola price_0 nr_steps nr_paths zs
    (by omega), ?_⟩
  obtain ⟨hlen, hrows, _⟩ := simState_invariant drift vola price_0 nr_steps nr_paths zs hs
    (nr_steps - 1) (le_refl _)
  exact ⟨hlen, hrows⟩

theorem simulate_paths_shape_witness :
    ∃ m, simulate_paths 0 0 1 2 3 (fun _ _ => 0) = Except.ok m
      ∧ m.length = 2 ∧ ∀ r ∈ m, r.length = 3 :=
  simulate_paths_shape 0 0 1 2 3 (fun _ _ => 0) (by decide) (by decide)

/-- C3: for every call with `nr_steps ≥ 1`, row `0` of the returned matrix
holds `price_0` at every path index. -/
theorem simulate_paths_row_zero (drift vola price_0 : ℝ) (nr_steps nr_paths : ℕ)
    (zs : ℕ → ℕ → ℝ) (hs : 1 ≤ nr_steps) :
    ∃ m, simulate_paths drift vola price_0 nr_steps nr_paths zs = Except.ok m
      ∧ ∀ p < nr_paths, entry m 0 p = price_0 := by
  refine ⟨_, simulate_paths_eq_simState drift vola price_0 nr_steps nr_paths zs
    (by omega), ?_⟩
  obtain ⟨_, _, hent⟩ := simState_invariant drift vola price_0 nr_steps nr_paths zs hs
    (nr_steps - 1) (le_refl _)
  intro p hp
  rw [hent 0 (Nat.zero_le _) p hp]
  rfl

theorem simulate_paths_row_zero_witness :
    ∃ m, simulate_paths 0 0 7 3 2 (fun _ _ => 0) = Except.ok m
      ∧ ∀ p < 2, entry m 0 p = 7 :=
  simulate_paths_row_zero 0 0 7 3 2 (fun _ _ => 0) (by decide)

/-- C4: for `nr_steps = 1` and any `nr_paths ≥ 1`, `simulate_paths` returns a
matrix with exactly one row, every entry of which equals `price_0`, and the
iteration sequence of the compounding loop is empty. -/
theorem simulate_paths_single_step (drift vola price_0 : ℝ) (nr_paths : ℕ)
    (zs : ℕ → ℕ → ℝ) ( _hp : 1 ≤ nr_paths) :
    simulate_paths drift vola price_0 1 nr_paths zs
      = Except.ok [List.replicate nr_paths price_0] ∧ loopSteps 1 = [] := by
  constructor
  · simp [simulate_paths, loopSteps, setRow, zeros_like, List.replicate_succ]
  · rfl

theorem simulate_paths_single_step_witness :
    simulate_paths 0 0 5 1 4 (fun _ _ => 0) = Except.ok [List.replicate 4 5]
      ∧ loopSteps 1 = [] :=
  simulate_paths_single_step 0 0 5 4 (fun _ _ => 0) (by decide)

/-- C5: for `vola = 0` and `drift = 0`, every entry of the matrix returned by
`simulate_paths` equals `price_0`, regardless of the random draws. -/
theorem simulate_paths_constant_paths (price_0 : ℝ) (nr_steps nr_paths : ℕ)
    (zs : ℕ → ℕ → ℝ) (hs : 1 ≤ nr_steps) :
    ∃ m, simulate_paths 0 0 price_0 nr_steps nr_paths zs = Except.ok m
      ∧ ∀ t < nr_steps, ∀ p < nr_paths, entry m t p = price_0 := by
  refine ⟨_, simulate_paths_eq_simState 0 0 price_0 nr_steps nr_paths zs
    (by omega), ?_⟩
  obtain ⟨_, _, hent⟩ := simState_invariant 0 0 price_0 nr_steps nr_paths zs hs
    (nr_steps - 1) (le_refl _)
  intro t ht p hp
  rw [hent t (by omega) p hp, pathValue_zero_drift_zero_vola]

theorem simulate_paths_constant_paths_witness :
    ∃ m, simulate_paths 0 0 9 2 2 (fun _ _ => 3) = Except.ok m
      ∧ ∀ t < 2, ∀ p < 2, entry m t p = 9 :=
  simulate_paths_constant_paths 9 2 2 (fun _ _ => 3) (by decide)

/-- C6: for `vola = 0` and any drift `d ≠ 0`, every path returned by
`simulate_paths` is the deterministic geometric progression
`price(t) = price_0 * exp(d * t)`, independent of the random draws. -/
theorem simulate_paths_zero_vola_geometric (d price_0 : ℝ) (nr_steps nr_paths : ℕ)
    (zs : ℕ → ℕ → ℝ) ( _hd : d ≠ 0) (hs : 1 ≤ nr_steps) :
    ∃ m, simulate_paths d 0 price_0 nr_steps nr_paths zs = Except.ok m
      ∧ ∀ t < nr_steps, ∀ p < nr_paths, entry m t p = price_0 * Real.exp (d * t) := by
  refine ⟨_, simulate_paths_eq_simState d 0 price_0 nr_steps nr_paths zs
    (by omega), ?_⟩
  obtain ⟨_, _, hent⟩ := simState_invariant d 0 price_0 nr_steps nr_paths zs hs
    (nr_steps - 1) (le_refl _)
  intro t ht p hp
  rw [hent t (by omega) p hp, pathValue_zero_vola]

theorem simulate_paths_zero_vola_geometric_witness :
    ∃ m, simulate_paths 1 0 2 2 1 (fun _ _ => 5) = Except.ok m
      ∧ ∀ t < 2, ∀ p < 1, entry m t p = 2 * Real.exp (1 * t) :=
  simulate_paths_zero_vola_geometric 1 2 2 1 (fun _ _ => 5) one_ne_zero (by decide)

/-- C7: the output of `simulate_paths` is a function of its arguments and the
drawn random matrix alone: two runs with equal arguments whose drawn
`(nr_steps, nr_paths)` standard-normal matrices agree entrywise return equal
price matrices. -/
theorem simulate_paths_deterministic_given_draws (drift vola price_0 : ℝ)
    (nr_steps nr_paths : ℕ) (zs1 zs2 : ℕ → ℕ → ℝ)
    (h : ∀ t < nr_steps, ∀ p < nr_paths, zs1 t p = zs2 t p) :
    simulate_paths drift vola price_0 nr_steps nr_paths zs1
      = simulate_paths drift vola price_0 nr_steps nr_paths zs2 := by
  by_cases h0 : nr_steps = 0
  · subst h0; rfl
  · simp only [simulate_paths, if_neg h0]
    congr 1
    apply foldl_loopBody_congr
    intro t ht p hp
    have hmem : t < nr_steps := by
      simp only [loopSteps] at ht
      obtain ⟨i, hi, rfl⟩ := List.mem_range'.mp ht
      omega
    exact h t hmem p hp

theorem simulate_paths_deterministic_given_draws_witness :
    simulate_paths 0 1 1 2 1 (fun t p => t + p)
      = simulate_paths 0 1 1 2 1 (fun t p => if t < 2 ∧ p < 1 then t + p else 0) :=
  simulate_paths_deterministic_given_draws 0 1 1 2 1 (fun t p => t + p)
    (fun t p => if t < 2 ∧ p < 1 then t + p else 0)
    (fun t ht p hp => by simp [ht, hp])

/-- C9 (implicit): for every call with `nr_steps ≥ 1`, `nr_paths ≥ 1` and
`price_0 > 0`, every entry of the returned matrix is strictly positive: each
entry is `price_0` times a product of strictly positive exponential return
factors. -/
theorem simulate_paths_entries_pos (drift vola price_0 : ℝ) (nr_steps nr_paths : ℕ)
    (zs : ℕ → ℕ → ℝ) (hs : 1 ≤ nr_steps) ( _hpaths : 1 ≤ nr_paths)
    (hprice : 0 < price_0) :
    ∃ m, simulate_paths drift vola price_0 nr_steps nr_paths zs = Except.ok m
      ∧ ∀ t < nr_steps, ∀ p < nr_paths, 0 < entry m t p := by
  refine ⟨_, simulate_paths_eq_simState drift vola price_0 nr_steps nr_paths zs
    (by omega), ?_⟩
  obtain ⟨_, _, hent⟩ := simState_invariant drift vola price_0 nr_steps nr_paths zs hs
    (nr_steps - 1) (le_refl _)
  intro t ht p hp
  rw [hent t (by omega) p hp]
  exact pathValue_pos drift vola price_0 zs t p hprice

theorem simulate_paths_entries_pos_witness :
    ∃ m, simulate_paths 0 1 1 2 1 (fun _ _ => 0) = Except.ok m
      ∧ ∀ t < 2, ∀ p < 1, 0 < entry m t p :=
  simulate_paths_entries_pos 0 1 1 2 1 (fun _ _ => 0) (by decide) (by decide) one_pos

/-- C10 (implicit): for `nr_steps = 0` and any `nr_paths`, `simulate_paths`
does not return a matrix: the row-0 assignment indexes an empty first axis
and the call fails with an out-of-bounds index error, with no prior input
validation. -/
theorem simulate_paths_zero_steps_fails (drift vola price_0 : ℝ) (nr_paths : ℕ)
    (zs : ℕ → ℕ → ℝ) :
    simulate_paths drift vola price_0 0 nr_paths zs
      = Except.error "IndexError: index 0 is out of bounds for axis 0 with size 0" :=
  rfl

/-- C8: the claim says the script-level profiling block produces two report
files; in the source the block evaluates the statement `my_func()` under the
profiler, but no global `my_func` is defined in the module, so the block
raises a `NameError` before either report file is opened and produces no
report file. -/
theorem mainBlock_raises_nameError :
    mainBlock = Except.error "NameError: name my_func is not defined" := by
  rfl

end Gbm
